import Mathlib

/-!
Verification of the csvq core (qittu/csvq-deb) against its specification.

Shallow embedding of the parts of the source the claims are about:
  * `lib/query/encode.go`   — the format encoders and `ConvertFieldContents`
  * `lib/query/reference_scope.go` — `ReferenceScope`, `FieldIndexCache`
  * `lib/cmd/flags.go`      — flag setters, `SetFormat`, `SetImportFormat`

External collaborators (the go-text codecs, `palette.Render`, the parser)
are modelled through the narrow interfaces the core uses, as the spec
prescribes.  Machine integers never overflow in the modelled code paths
(loop counters, field indices), so `Nat`/`Int` are used directly.
-/

/-! ## Value model (lib/value, spec section 3)

`value.Primary` is a tagged variant over
{String, Integer, Float, Boolean, Ternary, Datetime, Null}.
The encoders only consume each value through its rendered string
(`Raw()`, `String()`, `Format(time.RFC3339Nano)`), so Float and Datetime
carry their rendered string as payload; no float arithmetic is exercised
by the claims. -/

/-- The three-valued logic kind of `ternary.Value`: TRUE, FALSE, UNKNOWN. -/
inductive TernaryValue where
  | TRUE
  | FALSE
  | UNKNOWN
deriving DecidableEq, Repr

/-- Go `ternary.Value.String()`. -/
def TernaryValue.toStr : TernaryValue → String
  | .TRUE => "TRUE"
  | .FALSE => "FALSE"
  | .UNKNOWN => "UNKNOWN"

/-- Go `ternary.Value.ParseBool()`: TRUE parses to true, anything else to false. -/
def TernaryValue.parseBool : TernaryValue → Bool
  | .TRUE => true
  | _ => false

/-- `value.Primary`: the tagged union of the seven primary value kinds.
`float` and `datetime` carry their rendered decimal / RFC3339Nano string. -/
inductive Primary where
  | str (raw : String)
  | integer (i : Int)
  | float (rendered : String)
  | boolean (b : Bool)
  | ternaryVal (t : TernaryValue)
  | datetime (rendered : String)
  | null
deriving DecidableEq, Repr

/-- True exactly when the value's primary kind is String. -/
def Primary.isStringKind : Primary → Bool
  | .str _ => true
  | _ => false

/-- True exactly when the value's primary kind is Datetime. -/
def Primary.isDatetimeKind : Primary → Bool
  | .datetime _ => true
  | _ => false

/-! ## Palette effects and field alignments

`cmd.NoEffect`, `cmd.StringEffect`, ... are distinct named palette-effect
constants in package cmd; `text.FieldAlignment` is from go-text. -/

/-- The palette effect names used by `ConvertFieldContents`. -/
inductive Effect where
  | noEffect
  | stringEffect
  | numberEffect
  | booleanEffect
  | ternaryEffect
  | datetimeEffect
  | nullEffect
deriving DecidableEq, Repr

/-- go-text `text.FieldAlignment`. -/
inductive FieldAlignment where
  | notAligned
  | centering
  | rightAligned
  | leftAligned
deriving DecidableEq, Repr

/-- encode.go lines 389-433, `ConvertFieldContents(val, forTextTable)`:
renders a primary value to its output string together with the palette
effect for its kind and its table alignment.  Go `strconv.FormatBool`
renders "true"/"false"; `value.Integer.String()` renders the decimal
integer, matching `toString : Int -> String`. -/
def ConvertFieldContents (val : Primary) (forTextTable : Bool) :
    String × Effect × FieldAlignment :=
  match val with
  | .str s => (s, .stringEffect, .notAligned)
  | .integer i => (toString i, .numberEffect, .rightAligned)
  | .float s => (s, .numberEffect, .rightAligned)
  | .boolean b => (if b then "true" else "false", .booleanEffect, .centering)
  | .ternaryVal t =>
      if forTextTable then
        (t.toStr, .ternaryEffect, .centering)
      else if t ≠ .UNKNOWN then
        (if t.parseBool then "true" else "false", .booleanEffect, .centering)
      else
        ("", .noEffect, .notAligned)
  | .datetime s => (s, .datetimeEffect, .notAligned)
  | .null =>
      if forTextTable then
        ("NULL", .nullEffect, .centering)
      else
        ("", .noEffect, .notAligned)

/-! ## View model (spec section 3)

The encoders read `view.Header[i].Column`, `view.RecordSet[i][j][0]`,
`view.FieldLen()` (header length) and `view.RecordLen()`. A `Cell` is a
list of values whose element 0 is the cell's value; cells are non-empty
in every reachable view (Go would panic on index 0 of an empty cell). -/

/-- A cell: ordered sequence of values; element 0 is the value. -/
abbrev Cell := List Primary

/-- `view.RecordSet[i][j][0]`: element 0 of a cell. -/
def cellValue : Cell → Primary
  | [] => Primary.null
  | v :: _ => v

/-- A record: ordered sequence of cells. -/
abbrev Record := List Cell

/-- The part of `HeaderField` the encoders consume. -/
structure HeaderField where
  column : String
deriving DecidableEq, Repr

/-- The part of `View` the encoders consume. -/
structure View where
  header : List HeaderField
  recordSet : List Record
deriving DecidableEq, Repr

/-- `View.FieldLen()`: the header length. -/
def View.fieldLen (v : View) : Nat := v.header.length

/-- `View.RecordLen()`: the record count. -/
def View.recordLen (v : View) : Nat := v.recordSet.length

/-! ## Options model (lib/cmd/flags.go) -/

/-- `cmd.Format` (flags.go lines 91-103). `AutoSelect` is -1; the zero
value of the Go type is `CSV`. -/
inductive Format where
  | AutoSelect
  | CSV
  | TSV
  | FIXED
  | JSON
  | LTSV
  | GFM
  | ORG
  | TEXT
deriving DecidableEq, Repr

/-- go-text `txjson.EscapeType`; its Go zero value is `Backslash`
(spec section 6: `JSON_ESCAPE ∈ {BACKSLASH, HEX, HEXALL}`). -/
inductive EscapeType where
  | backslash
  | hexDigits
  | allWithHexDigits
deriving DecidableEq, Repr

/-- go-text `text.LineBreak`. -/
inductive LineBreak where
  | LF
  | CR
  | CRLF
deriving DecidableEq, Repr

/-- go-text `text.Encoding` (spec section 6 encoding set). -/
inductive Encoding where
  | AUTO
  | UTF8
  | UTF8M
  | UTF16
  | UTF16BE
  | UTF16LE
  | UTF16BEM
  | UTF16LEM
  | SJIS
deriving DecidableEq, Repr

/-- `cmd.ImportOptions` (flags.go lines 150-159). -/
structure ImportOptions where
  format : Format
  delimiter : Char
  delimiterPositions : Option (List Nat)
  singleLine : Bool
  jsonQuery : String
  encoding : Encoding
  noHeader : Bool
  withoutNull : Bool
deriving DecidableEq, Repr

/-- `cmd.NewImportOptions()` (flags.go lines 173-184). -/
def NewImportOptions : ImportOptions :=
  { format := .CSV
    delimiter := ','
    delimiterPositions := none
    singleLine := false
    jsonQuery := ""
    encoding := .AUTO
    noHeader := false
    withoutNull := false }

/-- `cmd.ExportOptions` (flags.go lines 186-205). -/
structure ExportOptions where
  stripEndingLineBreak : Bool
  format : Format
  encoding : Encoding
  delimiter : Char
  delimiterPositions : Option (List Nat)
  singleLine : Bool
  withoutHeader : Bool
  lineBreak : LineBreak
  encloseAll : Bool
  jsonEscape : EscapeType
  prettyPrint : Bool
  eastAsianEncoding : Bool
  countDiacriticalSign : Bool
  countFormatCode : Bool
  color : Bool
deriving DecidableEq, Repr

/-- `cmd.NewExportOptions()` (flags.go lines 219-237). -/
def NewExportOptions : ExportOptions :=
  { stripEndingLineBreak := false
    format := .TEXT
    encoding := .UTF8
    delimiter := ','
    delimiterPositions := none
    singleLine := false
    withoutHeader := false
    lineBreak := .LF
    encloseAll := false
    jsonEscape := .backslash
    prettyPrint := false
    eastAsianEncoding := false
    countDiacriticalSign := false
    countFormatCode := false
    color := false }

/-! ## Errors and cancellation -/

/-- Go `context` errors: `context.Canceled` and `context.DeadlineExceeded`. -/
inductive CtxError where
  | canceled
  | deadlineExceeded
deriving DecidableEq, Repr

/-- The error values the embedded functions can produce.
`dataEmpty` and `emptyResultSet` are the two distinct sentinel errors of
encode.go lines 26-27; the context errors are the converted forms. -/
inductive QError where
  | dataEmpty
  | emptyResultSet
  | contextCanceled
  | contextDeadlineExceeded
  | dataEncoding (msg : String)
  | system (msg : String)
  | variableRedeclared (name : String)
  | undeclaredVariable (name : String)
deriving DecidableEq, Repr

/-- Modelled from the spec: `ConvertContextError` (lib/query, not in src/).
Spec section 5: components "fail fast with `ContextCanceled`/
`ContextDeadlineExceeded`" when the ambient context reports cancellation
or deadline expiry. -/
def ConvertContextError : CtxError → QError
  | .canceled => .contextCanceled
  | .deadlineExceeded => .contextDeadlineExceeded

/-- A context modelled through the values `ctx.Err()` returns at each loop
iteration index.  A context that is never canceled. -/
def noCancelCtx : Nat → Option CtxError := fun _ => none

/-- A context that is canceled before the encoder starts. -/
def canceledCtx : Nat → Option CtxError := fun _ => some CtxError.canceled

/-! ## CSV encoder (encode.go lines 47-89)

The go-text csv writer is the out-of-scope codec; a written field is
modelled as the `(contents, quote)` pair handed to `csv.NewField`, and
the writer output as the list of written field rows.  `w.Write` and
`w.Flush` never fail on the in-memory writer. -/

/-- A field handed to `csv.NewField(contents, quote)`. -/
abbrev CsvField := String × Bool

/-- The record loop of `encodeCSV` (encode.go lines 67-84).  At every
index `i` with `i&15 == 0` the loop asks `ctx.Err()`; on a non-nil answer
it stores the converted error in `err` and breaks, leaving the remaining
records unwritten.  Returns the written rows and the value left in `err`. -/
def encodeCSVLoop (ctx : Nat → Option CtxError) (options : ExportOptions) :
    List Record → Nat → List (List CsvField) × Option QError
  | [], _ => ([], none)
  | rec :: rest, i =>
    match (if i % 16 = 0 then ctx i else none) with
    | some ce => ([], some (ConvertContextError ce))
    | none =>
      let fields := rec.map (fun cell =>
        let conv := ConvertFieldContents (cellValue cell) false
        let quote := options.encloseAll
          && (conv.2.1 = Effect.stringEffect || conv.2.1 = Effect.datetimeEffect : Bool)
        (conv.1, quote))
      let res := encodeCSVLoop ctx options rest (i + 1)
      (fields :: res.1, res.2)

/-- `encodeCSV` (encode.go lines 47-89).  Writes the header row unless
`WithoutHeader` (each header field quoted iff `EncloseAll`), rejects an
empty record set when the header is suppressed, then runs the record
loop.  After the loop the source executes
`if err = w.Flush(); err != nil { ... }; return nil`: the assignment
overwrites whatever the loop left in `err`, so with the in-memory writer
(whose Flush succeeds) the function reports no error even when the loop
broke on a canceled context. -/
def encodeCSV (ctx : Nat → Option CtxError) (view : View) (options : ExportOptions) :
    List (List CsvField) × Option QError :=
  if !options.withoutHeader then
    let headerRow := view.header.map (fun h => (h.column, options.encloseAll))
    let res := encodeCSVLoop ctx options view.recordSet 0
    (headerRow :: res.1, none)
  else if view.recordLen < 1 then
    ([], some .dataEmpty)
  else
    let res := encodeCSVLoop ctx options view.recordSet 0
    (res.1, none)

/-! ## LTSV encoder (encode.go lines 355-387) -/

/-- The record loop of `encodeLTSV` (encode.go lines 371-382); on a
cancelled context at a checked index the source returns the converted
error immediately. -/
def encodeLTSVLoop (ctx : Nat → Option CtxError) :
    List Record → Nat → List (List String) × Option QError
  | [], _ => ([], none)
  | rec :: rest, i =>
    match (if i % 16 = 0 then ctx i else none) with
    | some ce => ([], some (ConvertContextError ce))
    | none =>
      let fields := rec.map (fun cell => (ConvertFieldContents (cellValue cell) false).1)
      let res := encodeLTSVLoop ctx rest (i + 1)
      (fields :: res.1, res.2)

/-- `encodeLTSV` (encode.go lines 355-387): an empty record set is
rejected with `DataEmpty` before anything is written; otherwise the
record loop runs and a context error is propagated. -/
def encodeLTSV (ctx : Nat → Option CtxError) (view : View) (_options : ExportOptions) :
    List (List String) × Option QError :=
  if view.recordLen < 1 then
    ([], some .dataEmpty)
  else
    encodeLTSVLoop ctx view.recordSet 0

/-! ## Fixed-length encoder (encode.go lines 91-190)

The go-text fixedlen measure and position generation only shape the
column widths of the out-of-scope writer; the written field sequence is
`(contents, alignment)` pairs handed to `fixedlen.NewField`. -/

/-- A field handed to `fixedlen.NewField(contents, alignment)`. -/
abbrev FixedField := String × FieldAlignment

/-- The record loops of `encodeFixedLengthFormat` (encode.go lines
117-129 and 172-184): convert each record's cells, checking the context
every 16 records. -/
def encodeFixedLoop (ctx : Nat → Option CtxError) :
    List Record → Nat → List (List FixedField) × Option QError
  | [], _ => ([], none)
  | rec :: rest, i =>
    match (if i % 16 = 0 then ctx i else none) with
    | some ce => ([], some (ConvertContextError ce))
    | none =>
      let fields := rec.map (fun cell =>
        let conv := ConvertFieldContents (cellValue cell) false
        (conv.1, conv.2.2))
      let res := encodeFixedLoop ctx rest (i + 1)
      (fields :: res.1, res.2)

/-- The write-out loop of the measured branch (encode.go lines 137-145):
writes the pre-built field list, checking the context every 16 rows. -/
def writeFixedLoop (ctx : Nat → Option CtxError) :
    List (List FixedField) → Nat → List (List FixedField) × Option QError
  | [], _ => ([], none)
  | fs :: rest, i =>
    match (if i % 16 = 0 then ctx i else none) with
    | some ce => ([], some (ConvertContextError ce))
    | none =>
      let res := writeFixedLoop ctx rest (i + 1)
      (fs :: res.1, res.2)

/-- `encodeFixedLengthFormat` (encode.go lines 91-190).  With nil
`DelimiterPositions` a measuring pass builds the full field list (header
first unless `WithoutHeader`) and a second loop writes it; with given
positions the rows are written directly, `SingleLine` suppressing the
header row.  Either way a `WithoutHeader` view with no records is
rejected with `DataEmpty`.  The measure and `GeneratePositions` belong to
the out-of-scope fixedlen codec and do not change the written fields. -/
def encodeFixedLengthFormat (ctx : Nat → Option CtxError) (view : View)
    (options : ExportOptions) : List (List FixedField) × Option QError :=
  match options.delimiterPositions with
  | none =>
    if options.withoutHeader ∧ view.recordLen < 1 then
      ([], some .dataEmpty)
    else
      let headerRows : List (List FixedField) :=
        if options.withoutHeader then []
        else [view.header.map (fun h => (h.column, FieldAlignment.notAligned))]
      let res := encodeFixedLoop ctx view.recordSet 0
      match res.2 with
      | some e => ([], some e)
      | none => writeFixedLoop ctx (headerRows ++ res.1) 0
  | some _ =>
    if options.withoutHeader then
      if view.recordLen < 1 then
        ([], some .dataEmpty)
      else
        encodeFixedLoop ctx view.recordSet 0
    else
      let headerRows : List (List FixedField) :=
        if !options.singleLine then
          [view.header.map (fun h => (h.column, FieldAlignment.notAligned))]
        else []
      let res := encodeFixedLoop ctx view.recordSet 0
      (headerRows ++ res.1, res.2)

/-! ## Text/GFM/Org encoder (encode.go lines 242-353) -/

/-- The per-cell rune loop of `encodeText` for the TEXT format
(encode.go lines 297-325): walk the cell string's runes keeping the
current line in `textLineBuf`; at `\r\n`, `\r` or `\n` flush the
non-empty line through `palette.Render` and emit a plain `\n`; at the
end flush the final non-empty line.  `render` is
`palette.Render(effect, ·)` for the value's effect. -/
def textRenderCell (render : String → String) : List Char → String → String
  | [], lineBuf =>
      if 0 < lineBuf.length then render lineBuf else ""
  | '\r' :: '\n' :: rest, lineBuf =>
      (if 0 < lineBuf.length then render lineBuf else "") ++ "\n"
        ++ textRenderCell render rest ""
  | '\r' :: rest, lineBuf =>
      (if 0 < lineBuf.length then render lineBuf else "") ++ "\n"
        ++ textRenderCell render rest ""
  | '\n' :: rest, lineBuf =>
      (if 0 < lineBuf.length then render lineBuf else "") ++ "\n"
        ++ textRenderCell render rest ""
  | c :: rest, lineBuf => textRenderCell render rest (lineBuf.push c)

/-- One output field of the record loop of `encodeText` (encode.go lines
291-328): convert the cell, and in TEXT format re-render the string
per-line through the palette. -/
def textCellField (options : ExportOptions) (palette : Effect → String → String)
    (isPlainTable : Bool) (cell : Cell) : String × FieldAlignment :=
  let conv := ConvertFieldContents (cellValue cell) isPlainTable
  let str :=
    if options.format = Format.TEXT then textRenderCell (palette conv.2.1) conv.1.data ""
    else conv.1
  (str, conv.2.2)

/-- The record loop of `encodeText` (encode.go lines 285-335), checking
the context every 16 records. -/
def encodeTextLoop (ctx : Nat → Option CtxError) (options : ExportOptions)
    (palette : Effect → String → String) (isPlainTable : Bool) :
    List Record → Nat → List (List (String × FieldAlignment)) × Option QError
  | [], _ => ([], none)
  | rec :: rest, i =>
    match (if i % 16 = 0 then ctx i else none) with
    | some ce => ([], some (ConvertContextError ce))
    | none =>
      let rfields := rec.map (textCellField options palette isPlainTable)
      let res := encodeTextLoop ctx options palette isPlainTable rest (i + 1)
      (rfields :: res.1, res.2)

/-- The observable result of `encodeText`: the returned message string,
the returned error, the header handed to `e.SetHeader` and the records
handed to `e.AppendRecord`.  (The GFM `SetFieldAlignments` call and the
final `e.Encode()` string belong to the out-of-scope table codec.) -/
structure TextEncodeOut where
  msg : String
  err : Option QError
  header : Option (List (String × FieldAlignment))
  rows : List (List (String × FieldAlignment))
deriving DecidableEq, Repr

/-- `encodeText` (encode.go lines 242-353).  For the plain-text table
(every format other than GFM and ORG) an empty field set or record set is
reported as `EmptyResultSetError` with a message; otherwise the header is
set unless `WithoutHeader`, in which case an empty record set is rejected
with `DataEmpty`; then the record loop runs. -/
def encodeText (ctx : Nat → Option CtxError) (view : View) (options : ExportOptions)
    (palette : Effect → String → String) : TextEncodeOut :=
  let isPlainTable := !(options.format = Format.GFM) && !(options.format = Format.ORG)
  if isPlainTable ∧ view.fieldLen < 1 then
    { msg := "Empty Fields", err := some .emptyResultSet, header := none, rows := [] }
  else if isPlainTable ∧ view.recordLen < 1 then
    { msg := "Empty RecordSet", err := some .emptyResultSet, header := none, rows := [] }
  else
    let hdr : Option (List (String × FieldAlignment)) :=
      if !options.withoutHeader then
        some (view.header.map (fun h => (h.column, FieldAlignment.centering)))
      else none
    if options.withoutHeader ∧ view.recordLen < 1 then
      { msg := "", err := some .dataEmpty, header := none, rows := [] }
    else
      let res := encodeTextLoop ctx options palette isPlainTable view.recordSet 0
      match res.2 with
      | some e => { msg := "", err := some e, header := hdr, rows := res.1 }
      | none => { msg := "", err := none, header := hdr, rows := res.1 }

/-! ## Flags (lib/cmd/flags.go) -/

/-- `cmd.Flags` (flags.go lines 239-259). -/
structure Flags where
  repository : String
  location : String
  datetimeFormat : List String
  ansiQuotes : Bool
  waitTimeout : Float := 10
  importOptions : ImportOptions
  exportOptions : ExportOptions
  quiet : Bool
  limitRecursion : Int
  cpu : Nat
  stats : Bool

/-- `cmd.NewFlags(nil)` (flags.go lines 269-293); `numCPU` stands for the
runtime-dependent `GetDefaultNumberOfCPU()`. -/
def NewFlags (numCPU : Nat) : Flags :=
  { repository := ""
    location := "Local"
    datetimeFormat := []
    ansiQuotes := false
    waitTimeout := 10
    importOptions := NewImportOptions
    exportOptions := NewExportOptions
    quiet := false
    limitRecursion := 1000
    cpu := numCPU
    stats := false }

/-- Go `filepath.Ext`: scan the path backwards; stop at a path separator;
on the first `.` return the suffix from the dot on.  The scan is modelled
on the reversed character list, `acc` holding the characters already
passed (in original order). -/
def filepathExtRev : List Char → List Char → Option (List Char)
  | [], _ => none
  | c :: rest, acc =>
    if c = '/' then none
    else if c = '.' then some ('.' :: acc)
    else filepathExtRev rest (c :: acc)

/-- Go `filepath.Ext(path)`. -/
def filepathExt (path : String) : String :=
  match filepathExtRev path.data.reverse [] with
  | none => ""
  | some cs => String.mk cs

/-- Go `strings.ToUpper`, restricted to ASCII case mapping (every name
compared in the modelled code is ASCII). -/
def strToUpper (s : String) : String := String.mk (s.data.map Char.toUpper)

/-- Go `strings.ToLower`, restricted to ASCII case mapping. -/
def strToLower (s : String) : String := String.mk (s.data.map Char.toLower)

/-- Modelled from the spec: `ParseFormat` (package cmd, not in src/).
Spec section 6 gives the export format set
`FORMAT ∈ {CSV,TSV,FIXED,JSON,LTSV,GFM,ORG,TEXT}`; the name is matched
case-insensitively, any other name is an error, and the JSON escape type
handed in is passed through unchanged. -/
def ParseFormat (s : String) (escape : EscapeType) :
    Except String (Format × EscapeType) :=
  match strToUpper s with
  | "CSV" => .ok (.CSV, escape)
  | "TSV" => .ok (.TSV, escape)
  | "FIXED" => .ok (.FIXED, escape)
  | "JSON" => .ok (.JSON, escape)
  | "LTSV" => .ok (.LTSV, escape)
  | "GFM" => .ok (.GFM, escape)
  | "ORG" => .ok (.ORG, escape)
  | "TEXT" => .ok (.TEXT, escape)
  | _ => .error "format must be one of CSV|TSV|FIXED|JSON|LTSV|GFM|ORG|TEXT"

/-- `Flags.SetImportFormat` (flags.go lines 363-376): parse the name,
then accept only CSV, TSV, FIXED, JSON and LTSV for the import side;
anything else is an error and the options are untouched. -/
def Flags.SetImportFormat (f : Flags) (s : String) : Except String Flags :=
  match ParseFormat s f.exportOptions.jsonEscape with
  | .error _ => .error "import format must be one of CSV|TSV|FIXED|JSON|LTSV"
  | .ok (fm, _) =>
    match fm with
    | .CSV | .TSV | .FIXED | .JSON | .LTSV =>
      .ok { f with importOptions := { f.importOptions with format := fm } }
    | _ => .error "import format must be one of CSV|TSV|FIXED|JSON|LTSV"

/-- The inner extension switch of `Flags.SetFormat` (flags.go lines
439-454): the lower-cased output extension selects the format; an
extension outside the set falls to `default: return nil`. -/
def inferFormatFromExt : String → Option Format
  | ".csv" => some .CSV
  | ".tsv" => some .TSV
  | ".json" => some .JSON
  | ".ltsv" => some .LTSV
  | ".md" => some .GFM
  | ".org" => some .ORG
  | _ => none

/-- `Flags.SetFormat` (flags.go lines 432-464).  With an empty format
string the format is inferred from the output file extension (unknown
extensions change nothing); otherwise the name goes through
`ParseFormat`.  On success both `ExportOptions.Format` and
`ExportOptions.JsonEscape` are assigned from the local variables
`fm`/`escape`; in the inference branch `escape` keeps its Go zero value,
`txjson.Backslash`. -/
def Flags.SetFormat (f : Flags) (s : String) (outfile : String) : Except String Flags :=
  let escapeZero : EscapeType := .backslash
  if s = "" then
    match inferFormatFromExt (strToLower (filepathExt outfile)) with
    | none => .ok f
    | some fm =>
      .ok { f with exportOptions :=
              { f.exportOptions with format := fm, jsonEscape := escapeZero } }
  else
    match ParseFormat s f.exportOptions.jsonEscape with
    | .error e => .error e
    | .ok (fm, escape) =>
      .ok { f with exportOptions :=
              { f.exportOptions with format := fm, jsonEscape := escape } }

/-- Modelled from the spec: `ParseJsonEscapeType` (package cmd, not in
src/).  Spec section 6: `JSON_ESCAPE ∈ {BACKSLASH, HEX, HEXALL}`. -/
def ParseJsonEscapeType (s : String) : Except String EscapeType :=
  match strToUpper s with
  | "BACKSLASH" => .ok .backslash
  | "HEX" => .ok .hexDigits
  | "HEXALL" => .ok .allWithHexDigits
  | _ => .error "json escape type must be one of BACKSLASH|HEX|HEXALL"

/-- `Flags.SetJsonEscape` (flags.go lines 526-536). -/
def Flags.SetJsonEscape (f : Flags) (s : String) : Except String Flags :=
  match ParseJsonEscapeType s with
  | .error e => .error e
  | .ok escape =>
    .ok { f with exportOptions := { f.exportOptions with jsonEscape := escape } }

/-! ## FieldIndexCache (reference_scope.go lines 16, 109-155)

The cache keys are `parser.QueryExpression` values compared with Go
interface equality; the key type is abstracted to any type with
decidable equality.  The Go map is modelled as an association list with
in-place-overwrite insertion and first-match lookup. -/

/-- reference_scope.go line 16. -/
def LimitToUseFieldIndexSliceChache : Nat := 8

/-- First-match lookup, the behaviour of both a Go map read and the
linear scan over the parallel slices (zipped). -/
def mapLookup {α : Type} [DecidableEq α] : List (α × Int) → α → Option Int
  | [], _ => none
  | (k, v) :: rest, e => if k = e then some v else mapLookup rest e

/-- Go map assignment `m[e] = i`: overwrite the binding if the key is
present, otherwise add it. -/
def mapInsert {α : Type} [DecidableEq α] : List (α × Int) → α → Int → List (α × Int)
  | [], e, i => [(e, i)]
  | (k, v) :: rest, e, i =>
    if k = e then (k, i) :: rest else (k, v) :: mapInsert rest e i

/-- The upgrade loop of `FieldIndexCache.Add` (reference_scope.go lines
141-144): `for i := range c.exprs { c.m[c.exprs[i]] = c.indices[i] }`. -/
def buildMap {α : Type} [DecidableEq α] (l : List (α × Int)) : List (α × Int) :=
  l.foldl (fun mm p => mapInsert mm p.1 p.2) []

/-- `query.FieldIndexCache` (reference_scope.go lines 109-114): a nil Go
map is `none`; `exprs` and `indices` are the two parallel slices. -/
structure FieldIndexCache (α : Type) where
  limitToUseSlice : Nat
  m : Option (List (α × Int))
  exprs : List α
  indices : List Int

/-- `NewFieldIndexCache(initCap, limitToUseSlice)` (reference_scope.go
lines 116-123); `initCap` only pre-sizes the Go slices. -/
def NewFieldIndexCache (α : Type) (_initCap limitToUseSlice : Nat) : FieldIndexCache α :=
  { limitToUseSlice := limitToUseSlice, m := none, exprs := [], indices := [] }

/-- `FieldIndexCache.Get` (reference_scope.go lines 125-137).  With the
map present a Go map read returns the zero value `0` and `false` on a
miss; the slice scan returns `-1, false`. -/
def FieldIndexCache.Get {α : Type} [DecidableEq α] (c : FieldIndexCache α) (expr : α) :
    Int × Bool :=
  match c.m with
  | some mm =>
    match mapLookup mm expr with
    | some idx => (idx, true)
    | none => (0, false)
  | none =>
    match mapLookup (c.exprs.zip c.indices) expr with
    | some idx => (idx, true)
    | none => (-1, false)

/-- `FieldIndexCache.Add` (reference_scope.go lines 139-155): when an Add
arrives while the map is nil and the slice already holds
`limitToUseSlice` entries, the slices are poured into a fresh map and
cleared; then the pair goes into the slices (map still nil) or the map. -/
def FieldIndexCache.Add {α : Type} [DecidableEq α] (c : FieldIndexCache α)
    (expr : α) (idx : Int) : FieldIndexCache α :=
  let c :=
    if c.m = none ∧ c.limitToUseSlice ≤ c.exprs.length then
      { c with m := some (buildMap (c.exprs.zip c.indices)), exprs := [], indices := [] }
    else c
  match c.m with
  | none => { c with exprs := c.exprs ++ [expr], indices := c.indices ++ [idx] }
  | some mm => { c with m := some (mapInsert mm expr idx) }

/-- A sequence of `Add` calls, first to last. -/
def FieldIndexCache.addAll {α : Type} [DecidableEq α] (c : FieldIndexCache α)
    (l : List (α × Int)) : FieldIndexCache α :=
  l.foldl (fun c p => c.Add p.1 p.2) c

/-! ## ReferenceScope (reference_scope.go lines 157-359)

Block scopes are the claims' concern; a `BlockScope` also carries
temporary tables, cursors and user-defined functions — analogous
case-insensitive name maps whose value types live outside src/ and are
not exercised here.  `VariableMap` itself is not in src/. -/

/-- Modelled from the spec: `VariableMap` (lib/query, not in src/).
Spec section 3: each BlockScope namespace "is a mapping keyed by
case-insensitive name"; keys are stored upper-cased. -/
abbrev VariableMap := List (String × Primary)

/-- Modelled from the spec: case-insensitive variable lookup. -/
def VariableMap.get : VariableMap → String → Option Primary
  | [], _ => none
  | (k, v) :: rest, n => if k = strToUpper n then some v else VariableMap.get rest n

/-- Modelled from the spec: declaring a variable adds a binding; an
already-declared name is an error (`none`). -/
def VariableMap.add (m : VariableMap) (n : String) (v : Primary) : Option VariableMap :=
  if (m.get n).isSome then none else some (m ++ [(strToUpper n, v)])

/-- Modelled from the spec: assignment updates an existing binding and
reports `none` when the name is not bound here. -/
def VariableMap.set : VariableMap → String → Primary → Option VariableMap
  | [], _, _ => none
  | (k, w) :: rest, n, v =>
    if k = strToUpper n then some ((k, v) :: rest)
    else (VariableMap.set rest n v).map (fun m => (k, w) :: m)

/-- `query.BlockScope` (reference_scope.go lines 50-55), restricted to
the variables namespace (the Go field is named `variables`, which is a
reserved word in Lean). -/
structure BlockScope where
  vars : VariableMap
deriving DecidableEq, Repr

/-- `NewBlockScope()` / a cleared scope from the pool. -/
def BlockScope.empty : BlockScope := ⟨[]⟩

/-- `query.ReferenceScope` (reference_scope.go lines 157-171), restricted
to the block-scope stack; the innermost block is index 0. -/
structure ReferenceScope where
  blocks : List BlockScope
deriving DecidableEq, Repr

/-- `ReferenceScope.CreateChild` (reference_scope.go lines 221-238): a
fresh cleared block becomes index 0, the parent blocks follow in order.
The blocks after index 0 are the very BlockScope values of the parent
(Go copies the slice of map-holding structs, not the maps). -/
def ReferenceScope.CreateChild (rs : ReferenceScope) : ReferenceScope :=
  ⟨BlockScope.empty :: rs.blocks⟩

/-- `ReferenceScope.CloseCurrentBlock` (reference_scope.go lines
281-283) clears block 0 and returns it to the pool; execution continues
with the parent scope, which shares exactly the blocks after index 0. -/
def ReferenceScope.CloseCurrentBlock (rs : ReferenceScope) : ReferenceScope :=
  ⟨rs.blocks.tail⟩

/-- `ReferenceScope.Global` (reference_scope.go lines 269-271):
`rs.blocks[len(rs.blocks)-1]`.  A reachable scope always holds at least
one block. -/
def ReferenceScope.Global (rs : ReferenceScope) : Option BlockScope :=
  rs.blocks.getLast?

/-- `ReferenceScope.CurrentBlock` (reference_scope.go lines 273-275):
`rs.blocks[0]`. -/
def ReferenceScope.CurrentBlock (rs : ReferenceScope) : Option BlockScope :=
  rs.blocks.head?

/-- `ReferenceScope.DeclareVariableDirectly` (reference_scope.go lines
324-326): `rs.blocks[0].variables.Add(variable, val)`. -/
def ReferenceScope.DeclareVariableDirectly (rs : ReferenceScope) (n : String)
    (v : Primary) : Except QError ReferenceScope :=
  match rs.blocks with
  | [] => .error (.system "no block scope")
  | b :: rest =>
    match b.vars.add n v with
    | none => .error (.variableRedeclared n)
    | some vm => .ok ⟨⟨vm⟩ :: rest⟩

/-- The walk of `ReferenceScope.GetVariable` (reference_scope.go lines
328-335): blocks 0..n-1 in order, first hit wins. -/
def getVarBlocks : List BlockScope → String → Except QError Primary
  | [], n => .error (.undeclaredVariable n)
  | b :: rest, n =>
    match b.vars.get n with
    | some v => .ok v
    | none => getVarBlocks rest n

/-- `ReferenceScope.GetVariable` (reference_scope.go lines 328-335). -/
def ReferenceScope.GetVariable (rs : ReferenceScope) (n : String) :
    Except QError Primary :=
  getVarBlocks rs.blocks n

/-- The walk of `ReferenceScope.SubstituteVariableDirectly`
(reference_scope.go lines 352-359): the first block whose `Set`
succeeds is updated; `none` when no block binds the name. -/
def substBlocks : List BlockScope → String → Primary → Option (List BlockScope)
  | [], _, _ => none
  | b :: rest, n, v =>
    match b.vars.set n v with
    | some vm => some (⟨vm⟩ :: rest)
    | none => (substBlocks rest n v).map (fun bs => b :: bs)

/-- `ReferenceScope.SubstituteVariableDirectly` (reference_scope.go
lines 352-359), in state-passing form. -/
def ReferenceScope.SubstituteVariableDirectly (rs : ReferenceScope) (n : String)
    (v : Primary) : Except QError ReferenceScope :=
  match substBlocks rs.blocks n v with
  | some bs => .ok ⟨bs⟩
  | none => .error (.undeclaredVariable n)

/-- The binding block `i` offers for name `n`, if any. -/
def varsAt (rs : ReferenceScope) (i : Nat) (n : String) : Option Primary :=
  rs.blocks[i]?.bind (fun b => b.vars.get n)

/-! ## Specification-side functions for the per-line TEXT rendering (C7)
and the cache invariant (C4). -/

/-- Splitting a rune sequence on `\r\n`, `\r` or `\n`, the spec's
`\r\n|\r|\n` line splitting; a trailing break yields a final empty
segment. -/
def splitTextLines : List Char → List (List Char)
  | [] => [[]]
  | '\r' :: '\n' :: rest => [] :: splitTextLines rest
  | '\r' :: rest => [] :: splitTextLines rest
  | '\n' :: rest => [] :: splitTextLines rest
  | c :: rest =>
    match splitTextLines rest with
    | [] => [[c]]
    | l :: ls => (c :: l) :: ls

/-- Joining rendered segments with plain `\n` between them: every
non-empty segment is individually wrapped by `render`, empty segments
stay empty, and the separating line breaks sit outside the rendered
(escape-wrapped) text. -/
def joinLines (render : String → String) : List (List Char) → String
  | [] => ""
  | [seg] => if seg = [] then "" else render (String.mk seg)
  | seg :: rest =>
      (if seg = [] then "" else render (String.mk seg)) ++ "\n" ++ joinLines render rest

/-- Prepend pending characters to the first segment. -/
def prependHead (xs : List Char) : List (List Char) → List (List Char)
  | [] => [xs]
  | l :: ls => (xs ++ l) :: ls

/-- The invariant tying a `FieldIndexCache` to the history of `Add`
calls it has absorbed: either the map is still nil and the parallel
slices spell out the history (at most `L` entries), or the map is
present, the history is longer than `L`, and the map looks up exactly
as the history does. -/
def CacheInv {α : Type} [DecidableEq α] (L : Nat) (hist : List (α × Int))
    (c : FieldIndexCache α) : Prop :=
  c.limitToUseSlice = L ∧
  ((c.m = none ∧ c.exprs = hist.map Prod.fst ∧ c.indices = hist.map Prod.snd
      ∧ hist.length ≤ L)
   ∨ (∃ mm, c.m = some mm ∧ c.exprs = [] ∧ c.indices = [] ∧ L < hist.length
      ∧ ∀ x, mapLookup mm x = mapLookup hist x))

/-! ## Theorems -/

/-- C10: `ConvertFieldContents` is total over the seven primary value
kinds; outside plain-text-table mode a Null and a Ternary UNKNOWN both
render as the empty string with no color effect and no alignment; in
plain-text-table mode Null renders as "NULL" and every Ternary renders
its ternary name, both centered. -/
theorem convertFieldContents_null_ternary :
    (∀ (v : Primary) (ft : Bool), ∃ s e a, ConvertFieldContents v ft = (s, e, a))
    ∧ ConvertFieldContents Primary.null false
        = ("", Effect.noEffect, FieldAlignment.notAligned)
    ∧ ConvertFieldContents (Primary.ternaryVal .UNKNOWN) false
        = ("", Effect.noEffect, FieldAlignment.notAligned)
    ∧ ConvertFieldContents Primary.null true
        = ("NULL", Effect.nullEffect, FieldAlignment.centering)
    ∧ (∀ t, ConvertFieldContents (Primary.ternaryVal t) true
        = (t.toStr, Effect.ternaryEffect, FieldAlignment.centering)) := by
  refine ⟨fun v ft => ⟨_, _, _, rfl⟩, by decide, by decide, by decide, fun t => by cases t <;> rfl⟩

/-- C2 (code bug): `encodeCSV` invoked with an already-canceled context
on a one-record view reports success.  The record loop assigns the
converted context error to `err` and breaks, but the subsequent
`if err = w.Flush()` overwrites `err`; with the flush succeeding the
function returns nil and the record is silently dropped.  For contrast,
`encodeLTSV` on the same input returns the converted error as the other
encoders do. -/
theorem encodeCSV_canceled_reports_no_error :
    encodeCSV canceledCtx
      { header := [{ column := "c1" }], recordSet := [[[Primary.str "a"]]] }
      { NewExportOptions with format := .CSV, withoutHeader := true }
      = ([], none)
    ∧ encodeLTSV canceledCtx
      { header := [{ column := "c1" }], recordSet := [[[Primary.str "a"]]] }
      { NewExportOptions with format := .LTSV, withoutHeader := true }
      = ([], some QError.contextCanceled) := by
  constructor <;> rfl

/-- C1 counterexample: with `EncloseAll` false, a String-kind data field
is written unquoted although the claimed condition (`EncloseAll` OR kind
∈ {String, Datetime}) holds for it. -/
theorem encodeCSV_quote_or_counterexample :
    (encodeCSV noCancelCtx
      { header := [{ column := "c1" }], recordSet := [[[Primary.str "a"]]] }
      { NewExportOptions with format := .CSV, withoutHeader := true }).1
      = [[("a", false)]]
    ∧ (NewExportOptions.encloseAll
        || Primary.isStringKind (Primary.str "a")
        || Primary.isDatetimeKind (Primary.str "a")) = true := by
  constructor <;> rfl

/-- The record loop of `encodeCSV` under a context that is never
canceled: every record is written and no error is pending. -/
theorem encodeCSVLoop_noCancel (options : ExportOptions) (rs : List Record) (i : Nat) :
    encodeCSVLoop noCancelCtx options rs i
      = (rs.map (fun rec => rec.map (fun cell =>
          let conv := ConvertFieldContents (cellValue cell) false
          ((conv.1 : String),
           (options.encloseAll
             && (conv.2.1 = Effect.stringEffect || conv.2.1 = Effect.datetimeEffect : Bool))))),
         none) := by
  induction rs generalizing i with
  | nil => rfl
  | cons r rest ih => simp [encodeCSVLoop, noCancelCtx, ih]

/-- The quote flag computed from the conversion effect equals
`EncloseAll && (kind ∈ {String, Datetime})`. -/
theorem csv_quote_flag_eq_kind (options : ExportOptions) (v : Primary) :
    (options.encloseAll
      && ((ConvertFieldContents v false).2.1 = Effect.stringEffect
          || (ConvertFieldContents v false).2.1 = Effect.datetimeEffect : Bool))
      = (options.encloseAll && (v.isStringKind || v.isDatetimeKind)) := by
  cases v with
  | ternaryVal t =>
      cases t <;>
        simp [ConvertFieldContents, Primary.isStringKind, Primary.isDatetimeKind]
  | _ => simp [ConvertFieldContents, Primary.isStringKind, Primary.isDatetimeKind]

/-- C1 amended: for every view and export options (under a context that
is never canceled) the CSV/TSV encoder writes each data field quoted if
and only if `EncloseAll` is true AND the field value's kind is String or
Datetime; header fields are quoted iff `EncloseAll`. -/
theorem encodeCSV_quote_iff (options : ExportOptions) (view : View) :
    (options.withoutHeader = false →
      encodeCSV noCancelCtx view options
        = (view.header.map (fun h => (h.column, options.encloseAll))
            :: view.recordSet.map (fun rec => rec.map (fun cell =>
                 ((ConvertFieldContents (cellValue cell) false).1,
                  options.encloseAll
                    && (Primary.isStringKind (cellValue cell)
                        || Primary.isDatetimeKind (cellValue cell))))),
           none))
    ∧ (options.withoutHeader = true → 0 < view.recordLen →
      encodeCSV noCancelCtx view options
        = (view.recordSet.map (fun rec => rec.map (fun cell =>
             ((ConvertFieldContents (cellValue cell) false).1,
              options.encloseAll
                && (Primary.isStringKind (cellValue cell)
                    || Primary.isDatetimeKind (cellValue cell))))),
           none)) := by
  have hmap : ∀ rs : List Record,
      rs.map (fun rec => rec.map (fun cell =>
        let conv := ConvertFieldContents (cellValue cell) false
        ((conv.1 : String),
         (options.encloseAll
           && (conv.2.1 = Effect.stringEffect || conv.2.1 = Effect.datetimeEffect : Bool)))))
      = rs.map (fun rec => rec.map (fun cell =>
          ((ConvertFieldContents (cellValue cell) false).1,
           options.encloseAll
             && (Primary.isStringKind (cellValue cell)
                 || Primary.isDatetimeKind (cellValue cell))))) := by
    intro rs
    refine List.map_congr_left (fun rec _ => ?_)
    refine List.map_congr_left (fun cell _ => ?_)
    simp only [csv_quote_flag_eq_kind]
  constructor
  · intro hwh
    simp [encodeCSV, hwh, encodeCSVLoop_noCancel, hmap]
  · intro hwh hlen
    have : ¬ view.recordLen < 1 := by omega
    simp [encodeCSV, hwh, this, encodeCSVLoop_noCancel, hmap]

/-- C1 amended, witness: a concrete two-field record with `EncloseAll`
true quotes the String field and leaves the Integer field unquoted. -/
theorem encodeCSV_quote_iff_witness :
    encodeCSV noCancelCtx
      { header := [{ column := "c1" }, { column := "c2" }],
        recordSet := [[[Primary.str "a"], [Primary.integer 3]]] }
      { NewExportOptions with format := .CSV, withoutHeader := true, encloseAll := true }
      = ([[("a", true), ("3", false)]], none) := by
  have h := (encodeCSV_quote_iff
    { NewExportOptions with format := .CSV, withoutHeader := true, encloseAll := true }
    { header := [{ column := "c1" }, { column := "c2" }],
      recordSet := [[[Primary.str "a"], [Primary.integer 3]]] }).2 rfl (by decide)
  exact h.trans (by decide)

/-- C9 counterexample: in TEXT format a zero-record view with
`WithoutHeader` set is reported as `EmptyResultSetError` (message
"Empty RecordSet"), not as `DataEmpty`. -/
theorem encodeText_zero_records_counterexample :
    (encodeText noCancelCtx { header := [{ column := "c1" }], recordSet := [] }
       { NewExportOptions with format := .TEXT, withoutHeader := true }
       (fun _ s => s)).err = some QError.emptyResultSet
    ∧ (encodeText noCancelCtx { header := [{ column := "c1" }], recordSet := [] }
       { NewExportOptions with format := .TEXT, withoutHeader := true }
       (fun _ s => s)).msg = "Empty RecordSet"
    ∧ QError.emptyResultSet ≠ QError.dataEmpty := by
  exact ⟨rfl, rfl, by decide⟩

/-- C9 amended: `encodeLTSV` rejects every zero-record view with
`DataEmpty` before writing anything; `encodeCSV` and
`encodeFixedLengthFormat` do so for a zero-record view when
`WithoutHeader` is set; `encodeText` does so only in the GFM and ORG
formats, while in the plain-text-table formats a zero-record view is
reported as `EmptyResultSetError` with message "Empty RecordSet"
regardless of `WithoutHeader`. -/
theorem encoders_dataEmpty (ctx : Nat → Option CtxError) (view : View)
    (options : ExportOptions) (palette : Effect → String → String) :
    (view.recordLen = 0 →
      encodeLTSV ctx view options = ([], some QError.dataEmpty))
    ∧ (view.recordLen = 0 → options.withoutHeader = true →
      encodeCSV ctx view options = ([], some QError.dataEmpty))
    ∧ (view.recordLen = 0 → options.withoutHeader = true →
      encodeFixedLengthFormat ctx view options = ([], some QError.dataEmpty))
    ∧ (view.recordLen = 0 → options.withoutHeader = true →
      (options.format = Format.GFM ∨ options.format = Format.ORG) →
      encodeText ctx view options palette
        = { msg := "", err := some QError.dataEmpty, header := none, rows := [] })
    ∧ (view.recordLen = 0 → options.format ≠ Format.GFM → options.format ≠ Format.ORG →
      0 < view.fieldLen →
      (encodeText ctx view options palette).err = some QError.emptyResultSet
      ∧ (encodeText ctx view options palette).msg = "Empty RecordSet") := by
  refine ⟨?_, ?_, ?_, ?_, ?_⟩
  · intro h0
    simp [encodeLTSV, h0]
  · intro h0 hwh
    simp [encodeCSV, hwh, h0]
  · intro h0 hwh
    cases hdp : options.delimiterPositions with
    | none => simp [encodeFixedLengthFormat, hdp, hwh, h0]
    | some ps => simp [encodeFixedLengthFormat, hdp, hwh, h0]
  · intro h0 hwh hf
    have hplain : (!(options.format = Format.GFM) && !(options.format = Format.ORG)) = false := by
      rcases hf with hf | hf <;> simp [hf]
    simp [encodeText, hplain, hwh, h0]
  · intro h0 hg ho hfl
    have hplain : (!(options.format = Format.GFM) && !(options.format = Format.ORG)) = true := by
      simp [hg, ho]
    have hnf : ¬ view.fieldLen < 1 := by omega
    constructor <;> simp [encodeText, hplain, hnf, h0]

/-- C9 amended, witness: concrete zero-record views produce `DataEmpty`
for LTSV always, and for CSV, FIXED and GFM with `WithoutHeader`. -/
theorem encoders_dataEmpty_witness :
    encodeLTSV noCancelCtx { header := [{ column := "c" }], recordSet := [] }
      NewExportOptions = ([], some QError.dataEmpty)
    ∧ encodeCSV noCancelCtx { header := [{ column := "c" }], recordSet := [] }
      { NewExportOptions with format := .CSV, withoutHeader := true }
      = ([], some QError.dataEmpty)
    ∧ encodeFixedLengthFormat noCancelCtx { header := [{ column := "c" }], recordSet := [] }
      { NewExportOptions with format := .FIXED, withoutHeader := true }
      = ([], some QError.dataEmpty)
    ∧ encodeText noCancelCtx { header := [{ column := "c" }], recordSet := [] }
      { NewExportOptions with format := .GFM, withoutHeader := true } (fun _ s => s)
      = { msg := "", err := some QError.dataEmpty, header := none, rows := [] } := by
  refine ⟨?_, ?_, ?_, ?_⟩
  · exact (encoders_dataEmpty noCancelCtx _ _ (fun _ s => s)).1 rfl
  · exact (encoders_dataEmpty noCancelCtx _ _ (fun _ s => s)).2.1 rfl rfl
  · exact (encoders_dataEmpty noCancelCtx _ _ (fun _ s => s)).2.2.1 rfl rfl
  · exact (encoders_dataEmpty noCancelCtx _ _ (fun _ s => s)).2.2.2.1 rfl rfl (Or.inl rfl)

/-- A name outside the eight format names makes `ParseFormat` fail. -/
theorem parseFormat_not_mem (s : String) (e : EscapeType)
    (h : strToUpper s ∉ (["CSV", "TSV", "FIXED", "JSON", "LTSV", "GFM", "ORG", "TEXT"] : List String)) :
    ParseFormat s e = .error "format must be one of CSV|TSV|FIXED|JSON|LTSV|GFM|ORG|TEXT" := by
  simp only [List.mem_cons, List.not_mem_nil, or_false, not_or] at h
  obtain ⟨h1, h2, h3, h4, h5, h6, h7, h8⟩ := h
  unfold ParseFormat
  split <;> simp_all

/-- C5: `SetImportFormat` sets `ImportOptions.Format` and succeeds
exactly for the names CSV, TSV, FIXED, JSON, LTSV (matched
case-insensitively); any other value — including GFM, ORG and TEXT — is
rejected with an error, touching nothing. -/
theorem setImportFormat_spec (f : Flags) (s : String) :
    (strToUpper s = "CSV" → Flags.SetImportFormat f s
      = .ok { f with importOptions := { f.importOptions with format := Format.CSV } })
    ∧ (strToUpper s = "TSV" → Flags.SetImportFormat f s
      = .ok { f with importOptions := { f.importOptions with format := Format.TSV } })
    ∧ (strToUpper s = "FIXED" → Flags.SetImportFormat f s
      = .ok { f with importOptions := { f.importOptions with format := Format.FIXED } })
    ∧ (strToUpper s = "JSON" → Flags.SetImportFormat f s
      = .ok { f with importOptions := { f.importOptions with format := Format.JSON } })
    ∧ (strToUpper s = "LTSV" → Flags.SetImportFormat f s
      = .ok { f with importOptions := { f.importOptions with format := Format.LTSV } })
    ∧ (strToUpper s ∉ (["CSV", "TSV", "FIXED", "JSON", "LTSV"] : List String) →
      Flags.SetImportFormat f s
        = .error "import format must be one of CSV|TSV|FIXED|JSON|LTSV") := by
  refine ⟨?_, ?_, ?_, ?_, ?_, ?_⟩
  · intro h; simp [Flags.SetImportFormat, ParseFormat, h]
  · intro h; simp [Flags.SetImportFormat, ParseFormat, h]
  · intro h; simp [Flags.SetImportFormat, ParseFormat, h]
  · intro h; simp [Flags.SetImportFormat, ParseFormat, h]
  · intro h; simp [Flags.SetImportFormat, ParseFormat, h]
  · intro h
    simp only [List.mem_cons, List.not_mem_nil, or_false, not_or] at h
    obtain ⟨h1, h2, h3, h4, h5⟩ := h
    by_cases hg : strToUpper s = "GFM"
    · simp [Flags.SetImportFormat, ParseFormat, hg]
    by_cases ho : strToUpper s = "ORG"
    · simp [Flags.SetImportFormat, ParseFormat, ho]
    by_cases ht : strToUpper s = "TEXT"
    · simp [Flags.SetImportFormat, ParseFormat, ht]
    have hp := parseFormat_not_mem s f.exportOptions.jsonEscape (by
      simp only [List.mem_cons, List.not_mem_nil, or_false, not_or]
      exact ⟨h1, h2, h3, h4, h5, hg, ho, ht⟩)
    simp [Flags.SetImportFormat, hp]

/-- C5 witness: "json" is accepted case-insensitively and sets
the import format to JSON; "GFM" is rejected. -/
theorem setImportFormat_spec_witness :
    Flags.SetImportFormat (NewFlags 1) "json"
      = .ok { NewFlags 1 with
              importOptions := { (NewFlags 1).importOptions with format := Format.JSON } }
    ∧ Flags.SetImportFormat (NewFlags 1) "GFM"
      = .error "import format must be one of CSV|TSV|FIXED|JSON|LTSV" := by
  exact ⟨(setImportFormat_spec (NewFlags 1) "json").2.2.2.1 (by decide),
         (setImportFormat_spec (NewFlags 1) "GFM").2.2.2.2.2 (by decide)⟩

/-- C6: with an empty format string `SetFormat` infers the export format
from the output extension, matched case-insensitively (.csv, .tsv,
.json, .ltsv, .md, .org); all eight format names are accepted when given
explicitly; and an extension outside the inferable set leaves the
configuration unchanged. -/
theorem setFormat_spec (f : Flags) (s outfile : String) :
    (strToLower (filepathExt outfile) = ".csv" →
      ∃ f', Flags.SetFormat f "" outfile = .ok f' ∧ f'.exportOptions.format = Format.CSV)
    ∧ (strToLower (filepathExt outfile) = ".tsv" →
      ∃ f', Flags.SetFormat f "" outfile = .ok f' ∧ f'.exportOptions.format = Format.TSV)
    ∧ (strToLower (filepathExt outfile) = ".json" →
      ∃ f', Flags.SetFormat f "" outfile = .ok f' ∧ f'.exportOptions.format = Format.JSON)
    ∧ (strToLower (filepathExt outfile) = ".ltsv" →
      ∃ f', Flags.SetFormat f "" outfile = .ok f' ∧ f'.exportOptions.format = Format.LTSV)
    ∧ (strToLower (filepathExt outfile) = ".md" →
      ∃ f', Flags.SetFormat f "" outfile = .ok f' ∧ f'.exportOptions.format = Format.GFM)
    ∧ (strToLower (filepathExt outfile) = ".org" →
      ∃ f', Flags.SetFormat f "" outfile = .ok f' ∧ f'.exportOptions.format = Format.ORG)
    ∧ (strToUpper s ∈ (["CSV", "TSV", "FIXED", "JSON", "LTSV", "GFM", "ORG", "TEXT"] : List String) →
      ∃ f', Flags.SetFormat f s outfile = .ok f')
    ∧ (inferFormatFromExt (strToLower (filepathExt outfile)) = none →
      Flags.SetFormat f "" outfile = .ok f) := by
  refine ⟨?_, ?_, ?_, ?_, ?_, ?_, ?_, ?_⟩
  · intro h
    refine ⟨{ f with exportOptions := { f.exportOptions with
        format := Format.CSV, jsonEscape := EscapeType.backslash } }, ?_, rfl⟩
    simp [Flags.SetFormat, h, inferFormatFromExt]
  · intro h
    refine ⟨{ f with exportOptions := { f.exportOptions with
        format := Format.TSV, jsonEscape := EscapeType.backslash } }, ?_, rfl⟩
    simp [Flags.SetFormat, h, inferFormatFromExt]
  · intro h
    refine ⟨{ f with exportOptions := { f.exportOptions with
        format := Format.JSON, jsonEscape := EscapeType.backslash } }, ?_, rfl⟩
    simp [Flags.SetFormat, h, inferFormatFromExt]
  · intro h
    refine ⟨{ f with exportOptions := { f.exportOptions with
        format := Format.LTSV, jsonEscape := EscapeType.backslash } }, ?_, rfl⟩
    simp [Flags.SetFormat, h, inferFormatFromExt]
  · intro h
    refine ⟨{ f with exportOptions := { f.exportOptions with
        format := Format.GFM, jsonEscape := EscapeType.backslash } }, ?_, rfl⟩
    simp [Flags.SetFormat, h, inferFormatFromExt]
  · intro h
    refine ⟨{ f with exportOptions := { f.exportOptions with
        format := Format.ORG, jsonEscape := EscapeType.backslash } }, ?_, rfl⟩
    simp [Flags.SetFormat, h, inferFormatFromExt]
  · intro h
    have hne : ¬ s = "" := by
      intro hs
      rw [hs] at h
      simp [strToUpper] at h
    simp only [List.mem_cons, List.not_mem_nil, or_false] at h
    rcases h with h | h | h | h | h | h | h | h
    · exact ⟨{ f with exportOptions := { f.exportOptions with
          format := Format.CSV, jsonEscape := f.exportOptions.jsonEscape } },
        by simp [Flags.SetFormat, hne, ParseFormat, h]⟩
    · exact ⟨{ f with exportOptions := { f.exportOptions with
          format := Format.TSV, jsonEscape := f.exportOptions.jsonEscape } },
        by simp [Flags.SetFormat, hne, ParseFormat, h]⟩
    · exact ⟨{ f with exportOptions := { f.exportOptions with
          format := Format.FIXED, jsonEscape := f.exportOptions.jsonEscape } },
        by simp [Flags.SetFormat, hne, ParseFormat, h]⟩
    · exact ⟨{ f with exportOptions := { f.exportOptions with
          format := Format.JSON, jsonEscape := f.exportOptions.jsonEscape } },
        by simp [Flags.SetFormat, hne, ParseFormat, h]⟩
    · exact ⟨{ f with exportOptions := { f.exportOptions with
          format := Format.LTSV, jsonEscape := f.exportOptions.jsonEscape } },
        by simp [Flags.SetFormat, hne, ParseFormat, h]⟩
    · exact ⟨{ f with exportOptions := { f.exportOptions with
          format := Format.GFM, jsonEscape := f.exportOptions.jsonEscape } },
        by simp [Flags.SetFormat, hne, ParseFormat, h]⟩
    · exact ⟨{ f with exportOptions := { f.exportOptions with
          format := Format.ORG, jsonEscape := f.exportOptions.jsonEscape } },
        by simp [Flags.SetFormat, hne, ParseFormat, h]⟩
    · exact ⟨{ f with exportOptions := { f.exportOptions with
          format := Format.TEXT, jsonEscape := f.exportOptions.jsonEscape } },
        by simp [Flags.SetFormat, hne, ParseFormat, h]⟩
  · intro h
    simp [Flags.SetFormat, h]

/-- C6 witness: ".MD" infers GFM case-insensitively, "org" is accepted
explicitly, and ".txt" leaves the flags unchanged. -/
theorem setFormat_spec_witness :
    (∃ f', Flags.SetFormat (NewFlags 1) "" "Out.MD" = .ok f'
      ∧ f'.exportOptions.format = Format.GFM)
    ∧ (∃ f', Flags.SetFormat (NewFlags 1) "org" "x.csv" = .ok f')
    ∧ Flags.SetFormat (NewFlags 1) "" "data.txt" = .ok (NewFlags 1) := by
  exact ⟨(setFormat_spec (NewFlags 1) "" "Out.MD").2.2.2.2.1 (by decide),
         (setFormat_spec (NewFlags 1) "org" "x.csv").2.2.2.2.2.2.1 (by decide),
         (setFormat_spec (NewFlags 1) "" "data.txt").2.2.2.2.2.2.2 (by decide)⟩

/-- C8: when `SetFormat` infers the format from the output extension,
it also assigns `ExportOptions.JsonEscape` from the still-zero local
variable `escape`, overwriting any configured value with BACKSLASH; the
record-update equality shows every other field of the flags — and of the
export options — unchanged. -/
theorem setFormat_infer_overwrites_jsonEscape (f : Flags) (outfile : String) (fm : Format)
    (h : inferFormatFromExt (strToLower (filepathExt outfile)) = some fm) :
    Flags.SetFormat f "" outfile
      = .ok { f with exportOptions :=
                { f.exportOptions with format := fm, jsonEscape := EscapeType.backslash } } := by
  simp [Flags.SetFormat, h]

/-- C8 witness: a configured HEX escape is discarded when ".json" is
inferred from the output file name. -/
theorem setFormat_infer_overwrites_jsonEscape_witness :
    Flags.SetFormat
      { (NewFlags 1) with exportOptions :=
          { NewExportOptions with jsonEscape := EscapeType.hexDigits } }
      "" "o.json"
      = .ok { (NewFlags 1) with exportOptions :=
                { NewExportOptions with
                    format := Format.JSON
                    jsonEscape := EscapeType.backslash } } := by
  exact setFormat_infer_overwrites_jsonEscape
    { (NewFlags 1) with exportOptions :=
        { NewExportOptions with jsonEscape := EscapeType.hexDigits } }
    "o.json" Format.JSON (by decide)

/-- `splitTextLines` never returns the empty segment list. -/
theorem splitTextLines_ne_nil (cs : List Char) : splitTextLines cs ≠ [] := by
  induction cs using splitTextLines.induct <;> simp_all [splitTextLines]

theorem string_push_data (s : String) (c : Char) : (s.push c).data = s.data ++ [c] := rfl

theorem flush_eq (render : String → String) (buf : String) :
    (if 0 < buf.length then render buf else "")
      = (if buf.data = [] then "" else render (String.mk buf.data)) := by
  obtain ⟨data⟩ := buf
  cases data with
  | nil => simp [String.length]
  | cons a as => simp [String.length]

/-- The rune loop of the TEXT renderer is the per-line split-and-render:
the output joins the segments of `splitTextLines` with plain `\n`,
rendering each non-empty segment individually. -/
theorem textRenderCell_eq_join (render : String → String) (cs : List Char) (buf : String) :
    textRenderCell render cs buf
      = joinLines render (prependHead buf.data (splitTextLines cs)) := by
  induction cs, buf using textRenderCell.induct render with
  | case1 lineBuf h =>
      obtain ⟨data⟩ := lineBuf
      have hne : data ≠ [] := by
        intro hd
        subst hd
        simp [String.length] at h
      simp [textRenderCell, splitTextLines, prependHead, joinLines, h, hne]
  | case2 lineBuf h =>
      obtain ⟨data⟩ := lineBuf
      have hd : data = [] := by
        by_contra hne
        exact h (by simpa [String.length] using List.length_pos.mpr hne)
      subst hd
      simp [textRenderCell, splitTextLines, prependHead, joinLines, String.length]
  | case3 rest lineBuf ih =>
      obtain ⟨l, ls, hls⟩ : ∃ l ls, splitTextLines rest = l :: ls := by
        cases h : splitTextLines rest with
        | nil => exact absurd h (splitTextLines_ne_nil rest)
        | cons l ls => exact ⟨l, ls, rfl⟩
      rw [textRenderCell, ih]
      simp [splitTextLines, hls, prependHead, joinLines, flush_eq]
  | case4 rest lineBuf hr ih =>
      obtain ⟨l, ls, hls⟩ : ∃ l ls, splitTextLines rest = l :: ls := by
        cases h : splitTextLines rest with
        | nil => exact absurd h (splitTextLines_ne_nil rest)
        | cons l ls => exact ⟨l, ls, rfl⟩
      rw [textRenderCell, ih]
      · simp [splitTextLines, hls, prependHead, joinLines, flush_eq, hr]
      · exact hr
  | case5 rest lineBuf ih =>
      obtain ⟨l, ls, hls⟩ : ∃ l ls, splitTextLines rest = l :: ls := by
        cases h : splitTextLines rest with
        | nil => exact absurd h (splitTextLines_ne_nil rest)
        | cons l ls => exact ⟨l, ls, rfl⟩
      rw [textRenderCell, ih]
      simp [splitTextLines, hls, prependHead, joinLines, flush_eq]
  | case6 c rest lineBuf hcr hc1 hc2 ih =>
      obtain ⟨l, ls, hls⟩ : ∃ l ls, splitTextLines rest = l :: ls := by
        cases h : splitTextLines rest with
        | nil => exact absurd h (splitTextLines_ne_nil rest)
        | cons l ls => exact ⟨l, ls, rfl⟩
      rw [textRenderCell, ih]
      · simp [splitTextLines, hls, prependHead, joinLines, string_push_data,
          hc1, hc2, hcr, List.append_assoc]
      · exact hcr
      · exact hc1
      · exact hc2

/-- No segment produced by the line split contains a line-break rune. -/
theorem splitTextLines_no_breaks (cs : List Char) :
    ∀ seg ∈ splitTextLines cs, '\n' ∉ seg ∧ '\r' ∉ seg := by
  induction cs using splitTextLines.induct with
  | case1 => simp [splitTextLines]
  | case2 rest ih =>
      intro seg hseg
      simp only [splitTextLines, List.mem_cons] at hseg
      rcases hseg with rfl | hseg
      · simp
      · exact ih seg hseg
  | case3 rest hr ih =>
      intro seg hseg
      rw [splitTextLines] at hseg
      · rcases List.mem_cons.mp hseg with rfl | hseg
        · simp
        · exact ih seg hseg
      · exact hr
  | case4 rest ih =>
      intro seg hseg
      simp only [splitTextLines, List.mem_cons] at hseg
      rcases hseg with rfl | hseg
      · simp
      · exact ih seg hseg
  | case5 c rest hcr hc1 hc2 hnil ih =>
      exact absurd hnil (splitTextLines_ne_nil rest)
  | case6 c rest hcr hc1 hc2 l ls hls ih =>
      intro seg hseg
      have hred : splitTextLines (c :: rest) = (c :: l) :: ls := by
        rw [splitTextLines]
        · rw [hls]
        · exact hcr
        · exact hc1
        · exact hc2
      rw [hred] at hseg
      rcases List.mem_cons.mp hseg with rfl | hseg
      · have hl := ih l (by rw [hls]; exact List.mem_cons_self l ls)
        constructor
        · simp only [List.mem_cons, not_or]
          exact ⟨fun h => hc2 h.symm, hl.1⟩
        · simp only [List.mem_cons, not_or]
          exact ⟨fun h => hc1 h.symm, hl.2⟩
      · exact ih seg (by rw [hls]; exact List.mem_cons_of_mem l hseg)

/-- C7: in TEXT format every cell string is rendered per-line: the
string splits on `\r\n`, `\r` or `\n`; each non-empty segment is
individually wrapped by the palette render function for the value's
kind; the breaks between segments are plain `\n` outside the rendered
text, and no segment handed to the palette contains a line-break rune,
so no color escape sequence spans a line boundary. -/
theorem encodeText_text_renders_per_line (render : String → String) (s : String) :
    textRenderCell render s.data ""
      = joinLines render (splitTextLines s.data)
    ∧ ∀ seg ∈ splitTextLines s.data, '\n' ∉ seg ∧ '\r' ∉ seg := by
  constructor
  · have h := textRenderCell_eq_join render s.data ""
    obtain ⟨l, ls, hls⟩ : ∃ l ls, splitTextLines s.data = l :: ls := by
      cases hx : splitTextLines s.data with
      | nil => exact absurd hx (splitTextLines_ne_nil s.data)
      | cons l ls => exact ⟨l, ls, rfl⟩
    rw [hls] at h ⊢
    simpa [prependHead] using h
  · exact splitTextLines_no_breaks s.data

/-- Looking up a freshly appended binding succeeds when the name was
previously unbound. -/
theorem variableMap_get_append (m : VariableMap) (n : String) (v : Primary)
    (h : m.get n = none) :
    VariableMap.get (m ++ [(strToUpper n, v)]) n = some v := by
  induction m with
  | nil => simp [VariableMap.get]
  | cons kv rest ih =>
      obtain ⟨k, w⟩ := kv
      by_cases hk : k = strToUpper n
      · simp [VariableMap.get, hk] at h
      · simp only [VariableMap.get, hk, if_false] at h
        simp only [List.cons_append, VariableMap.get, hk, if_false]
        exact ih h

/-- Setting a bound name succeeds and the new value is read back. -/
theorem variableMap_set_some (m : VariableMap) (n : String) (v u : Primary)
    (h : m.get n = some u) :
    ∃ m', m.set n v = some m' ∧ m'.get n = some v := by
  induction m with
  | nil => simp [VariableMap.get] at h
  | cons kv rest ih =>
      obtain ⟨k, w⟩ := kv
      by_cases hk : k = strToUpper n
      · exact ⟨(k, v) :: rest, by simp [VariableMap.set, hk], by simp [VariableMap.get, hk]⟩
      · simp only [VariableMap.get, hk, if_false] at h
        obtain ⟨m', hm', hget⟩ := ih h
        exact ⟨(k, w) :: m', by simp [VariableMap.set, hk, hm'],
               by simp [VariableMap.get, hk, hget]⟩

/-- Setting fails exactly on unbound names. -/
theorem variableMap_set_none_iff (m : VariableMap) (n : String) (v : Primary) :
    m.set n v = none ↔ m.get n = none := by
  induction m with
  | nil => simp [VariableMap.set, VariableMap.get]
  | cons kv rest ih =>
      obtain ⟨k, w⟩ := kv
      by_cases hk : k = strToUpper n
      · simp [VariableMap.set, VariableMap.get, hk]
      · simp [VariableMap.set, VariableMap.get, hk, Option.map_eq_none', ih]

/-- The scope walk returns the binding of the first block that binds the
name. -/
theorem getVarBlocks_first (n : String) :
    ∀ (bs : List BlockScope) (i : Nat) (u : Primary),
      (∀ j, j < i → bs[j]?.bind (fun b => b.vars.get n) = none) →
      bs[i]?.bind (fun b => b.vars.get n) = some u →
      getVarBlocks bs n = .ok u := by
  intro bs
  induction bs with
  | nil => intro i u _ hi; simp at hi
  | cons b rest ih =>
      intro i u hlt hi
      cases i with
      | zero =>
          simp only [List.getElem?_cons_zero, Option.some_bind] at hi
          simp [getVarBlocks, hi]
      | succ i' =>
          have h0 := hlt 0 (Nat.succ_pos i')
          simp only [List.getElem?_cons_zero, Option.some_bind] at h0
          simp only [List.getElem?_cons_succ] at hi
          rw [getVarBlocks, h0]
          exact ih i' u (fun j hj => by
            have h1 := hlt (j + 1) (Nat.succ_lt_succ hj)
            simpa using h1) hi

/-- The substitution walk updates exactly the first block that binds the
name and leaves every other block untouched. -/
theorem substBlocks_first (n : String) (v : Primary) :
    ∀ (bs : List BlockScope) (i : Nat) (u : Primary),
      (∀ j, j < i → bs[j]?.bind (fun b => b.vars.get n) = none) →
      bs[i]?.bind (fun b => b.vars.get n) = some u →
      ∃ bs', substBlocks bs n v = some bs'
        ∧ bs'[i]?.bind (fun b => b.vars.get n) = some v
        ∧ (∀ k, k ≠ i → bs'[k]? = bs[k]?) := by
  intro bs
  induction bs with
  | nil => intro i u _ hi; simp at hi
  | cons b rest ih =>
      intro i u hlt hi
      cases i with
      | zero =>
          simp only [List.getElem?_cons_zero, Option.some_bind] at hi
          obtain ⟨m', hm', hget⟩ := variableMap_set_some b.vars n v u hi
          refine ⟨⟨m'⟩ :: rest, by simp [substBlocks, hm'], by simp [hget], ?_⟩
          intro k hk
          cases k with
          | zero => exact absurd rfl hk
          | succ k' => simp
      | succ i' =>
          have h0 := hlt 0 (Nat.succ_pos i')
          simp only [List.getElem?_cons_zero, Option.some_bind] at h0
          have hset : b.vars.set n v = none := (variableMap_set_none_iff b.vars n v).mpr h0
          simp only [List.getElem?_cons_succ] at hi
          obtain ⟨rest', hrest', hat, hframe⟩ := ih i' u (fun j hj => by
            have h1 := hlt (j + 1) (Nat.succ_lt_succ hj)
            simpa using h1) hi
          refine ⟨b :: rest', by simp [substBlocks, hset, hrest'], by simpa using hat, ?_⟩
          intro k hk
          cases k with
          | zero => simp
          | succ k' =>
              simp only [List.getElem?_cons_succ]
              exact hframe k' (fun h => hk (by rw [h]))

/-- A readable name is assignable, and afterwards reads back the new
value. -/
theorem substBlocks_of_get (n : String) (v : Primary) :
    ∀ (bs : List BlockScope) (u : Primary), getVarBlocks bs n = .ok u →
      ∃ bs', substBlocks bs n v = some bs' ∧ getVarBlocks bs' n = .ok v := by
  intro bs
  induction bs with
  | nil => intro u h; simp [getVarBlocks] at h
  | cons b rest ih =>
      intro u h
      cases hb : b.vars.get n with
      | some w =>
          obtain ⟨m', hm', hget⟩ := variableMap_set_some b.vars n v w hb
          exact ⟨⟨m'⟩ :: rest, by simp [substBlocks, hm'],
                 by simp [getVarBlocks, hget]⟩
      | none =>
          rw [getVarBlocks, hb] at h
          obtain ⟨rest', hrest', hget⟩ := ih u h
          have hset : b.vars.set n v = none := (variableMap_set_none_iff b.vars n v).mpr hb
          exact ⟨b :: rest', by simp [substBlocks, hset, hrest'],
                 by rw [getVarBlocks, hb]; exact hget⟩

/-- C3: the innermost block is index 0 and `Global()` is the last
(outermost) block, preserved by `CreateChild`; `DeclareVariableDirectly`
always inserts into block 0, leaving the outer blocks untouched;
`GetVariable` walks blocks 0..n-1 and returns the first binding found;
`SubstituteVariableDirectly` assigns to the innermost block that already
binds the variable and touches no other block, so an assignment across a
block boundary mutates the defining scope; and a variable declared in a
child block created by `CreateChild` is no longer reachable once that
block is closed. -/
theorem referenceScope_invariants (b0 : BlockScope) (bs : List BlockScope)
    (n : String) (v : Primary) :
    ((ReferenceScope.mk (b0 :: bs)).CreateChild.blocks = BlockScope.empty :: b0 :: bs
      ∧ (ReferenceScope.mk (b0 :: bs)).CreateChild.Global
          = (ReferenceScope.mk (b0 :: bs)).Global)
    ∧ (∀ rs', (ReferenceScope.mk (b0 :: bs)).DeclareVariableDirectly n v = .ok rs' →
        rs'.blocks.tail = bs ∧ varsAt rs' 0 n = some v ∧ rs'.GetVariable n = .ok v)
    ∧ (∀ i u, (∀ j, j < i → varsAt (ReferenceScope.mk (b0 :: bs)) j n = none) →
        varsAt (ReferenceScope.mk (b0 :: bs)) i n = some u →
        (ReferenceScope.mk (b0 :: bs)).GetVariable n = .ok u)
    ∧ (∀ i u, (∀ j, j < i → varsAt (ReferenceScope.mk (b0 :: bs)) j n = none) →
        varsAt (ReferenceScope.mk (b0 :: bs)) i n = some u →
        ∃ rs', (ReferenceScope.mk (b0 :: bs)).SubstituteVariableDirectly n v = .ok rs'
          ∧ varsAt rs' i n = some v
          ∧ (∀ k, k ≠ i → rs'.blocks[k]? = (b0 :: bs)[k]?)
          ∧ rs'.GetVariable n = .ok v)
    ∧ ((ReferenceScope.mk (b0 :: bs)).GetVariable n = .error (.undeclaredVariable n) →
        ∀ c, (ReferenceScope.mk (b0 :: bs)).CreateChild.DeclareVariableDirectly n v = .ok c →
          c.GetVariable n = .ok v
          ∧ c.CloseCurrentBlock.GetVariable n = .error (.undeclaredVariable n))
    ∧ (∀ u, (ReferenceScope.mk (b0 :: bs)).GetVariable n = .ok u →
        ∃ c, (ReferenceScope.mk (b0 :: bs)).CreateChild.SubstituteVariableDirectly n v = .ok c
          ∧ c.CloseCurrentBlock.GetVariable n = .ok v) := by
  refine ⟨⟨rfl, ?_⟩, ?_, ?_, ?_, ?_, ?_⟩
  · simp [ReferenceScope.CreateChild, ReferenceScope.Global, List.getLast?_cons_cons]
  · intro rs' h
    cases hb : b0.vars.get n with
    | some w =>
        simp [ReferenceScope.DeclareVariableDirectly, VariableMap.add, hb] at h
    | none =>
        simp [ReferenceScope.DeclareVariableDirectly, VariableMap.add, hb] at h
        subst h
        refine ⟨rfl, ?_, ?_⟩
        · simpa [varsAt] using variableMap_get_append b0.vars n v hb
        · show getVarBlocks _ n = _
          rw [getVarBlocks, variableMap_get_append b0.vars n v hb]
  · intro i u hlt hi
    exact getVarBlocks_first n (b0 :: bs) i u hlt hi
  · intro i u hlt hi
    obtain ⟨bs', hsubst, hat, hframe⟩ := substBlocks_first n v (b0 :: bs) i u hlt hi
    refine ⟨⟨bs'⟩, ?_, hat, hframe, ?_⟩
    · simp [ReferenceScope.SubstituteVariableDirectly, hsubst]
    · refine getVarBlocks_first n bs' i v ?_ hat
      intro j hj
      rw [hframe j (Nat.ne_of_lt hj)]
      exact hlt j hj
  · intro hmiss c hdecl
    have hempty : (BlockScope.empty.vars.get n) = none := rfl
    simp [ReferenceScope.CreateChild, ReferenceScope.DeclareVariableDirectly,
      VariableMap.add, hempty] at hdecl
    subst hdecl
    constructor
    · show getVarBlocks _ n = _
      rw [getVarBlocks]
      have : VariableMap.get (BlockScope.empty.vars ++ [(strToUpper n, v)]) n = some v :=
        variableMap_get_append BlockScope.empty.vars n v rfl
      rw [this]
    · exact hmiss
  · intro u hget
    obtain ⟨bs', hsubst, hget'⟩ := substBlocks_of_get n v (b0 :: bs) u hget
    have hempty : BlockScope.empty.vars.set n v = none := rfl
    have hstep : substBlocks (BlockScope.empty :: b0 :: bs) n v
        = (substBlocks (b0 :: bs) n v).map (fun l => BlockScope.empty :: l) := rfl
    refine ⟨⟨BlockScope.empty :: bs'⟩, ?_, ?_⟩
    · simp [ReferenceScope.CreateChild, ReferenceScope.SubstituteVariableDirectly,
        hstep, hsubst]
    · exact hget'

/-- C3 witness: a scope whose only block binds X to 1; assigning x
across the boundary of a fresh child block mutates the defining block,
and the new value is read back after the child closes. -/
theorem referenceScope_invariants_witness :
    ∃ c, (ReferenceScope.mk [⟨[("X", Primary.integer 1)]⟩]).CreateChild.SubstituteVariableDirectly
            "x" (Primary.integer 2) = .ok c
      ∧ c.CloseCurrentBlock.GetVariable "x" = .ok (Primary.integer 2) := by
  exact (referenceScope_invariants ⟨[("X", Primary.integer 1)]⟩ [] "x"
    (Primary.integer 2)).2.2.2.2.2 (Primary.integer 1) (by rfl)

/-- Lookup misses exactly the keys that are absent. -/
theorem mapLookup_not_mem {α : Type} [DecidableEq α] (l : List (α × Int)) (x : α)
    (h : x ∉ l.map Prod.fst) : mapLookup l x = none := by
  induction l with
  | nil => rfl
  | cons kv rest ih =>
      obtain ⟨k, w⟩ := kv
      simp only [List.map_cons, List.mem_cons, not_or] at h
      rw [mapLookup, if_neg (fun hk => h.1 hk.symm)]
      exact ih h.2

/-- With distinct keys, lookup returns the stored value of a member. -/
theorem mapLookup_mem_nodup {α : Type} [DecidableEq α] (l : List (α × Int)) (x : α) (i : Int)
    (hnd : (l.map Prod.fst).Nodup) (h : (x, i) ∈ l) : mapLookup l x = some i := by
  induction l with
  | nil => simp at h
  | cons kv rest ih =>
      obtain ⟨k, w⟩ := kv
      simp only [List.map_cons, List.nodup_cons] at hnd
      rcases List.mem_cons.mp h with heq | hmem
      · injection heq with h1 h2
        subst h1
        subst h2
        simp [mapLookup]
      · have hk : k ≠ x := by
          rintro rfl
          exact hnd.1 (List.mem_map.mpr ⟨(k, i), hmem, rfl⟩)
        simp only [mapLookup, if_neg hk]
        exact ih hnd.2 hmem

/-- Go map assignment then lookup: the inserted key reads back the new
value, every other key is unaffected. -/
theorem mapLookup_mapInsert {α : Type} [DecidableEq α] (mm : List (α × Int))
    (e : α) (i : Int) (x : α) :
    mapLookup (mapInsert mm e i) x = if x = e then some i else mapLookup mm x := by
  induction mm with
  | nil =>
      simp only [mapInsert, mapLookup]
      by_cases hx : x = e
      · rw [if_pos hx.symm, if_pos hx]
      · rw [if_neg (fun h => hx h.symm), if_neg hx]
  | cons kv rest ih =>
      obtain ⟨k, w⟩ := kv
      by_cases hk : k = e
      · rw [mapInsert, if_pos hk]
        by_cases hx : x = k
        · rw [mapLookup, if_pos hx.symm, if_pos (hx.trans hk)]
        · have hxe : ¬ x = e := fun h => hx (h.trans hk.symm)
          rw [mapLookup, if_neg (fun h => hx h.symm), if_neg hxe,
            mapLookup, if_neg (fun h => hx h.symm)]
      · rw [mapInsert, if_neg hk]
        by_cases hx : x = k
        · have hxe : ¬ x = e := fun h => hk (hx.symm.trans h)
          rw [mapLookup, if_pos hx.symm, if_neg hxe, mapLookup, if_pos hx.symm]
        · rw [mapLookup, if_neg (fun h => hx h.symm), ih]
          by_cases hxe : x = e
          · rw [if_pos hxe, if_pos hxe]
          · rw [if_neg hxe, if_neg hxe, mapLookup, if_neg (fun h => hx h.symm)]

/-- The upgrade loop pours the history into the map: with distinct keys
the map looks up exactly as the history list does. -/
theorem mapLookup_buildMap_aux {α : Type} [DecidableEq α] :
    ∀ (l acc : List (α × Int)) (x : α), (l.map Prod.fst).Nodup →
      mapLookup (l.foldl (fun mm p => mapInsert mm p.1 p.2) acc) x
        = (match mapLookup l x with
           | some w => some w
           | none => mapLookup acc x) := by
  intro l
  induction l with
  | nil => intro acc x _; rfl
  | cons kv rest ih =>
      intro acc x hnd
      obtain ⟨k, w⟩ := kv
      simp only [List.map_cons, List.nodup_cons] at hnd
      rw [List.foldl_cons, ih (mapInsert acc k w) x hnd.2]
      by_cases hx : x = k
      · subst hx
        have hrest : mapLookup rest x = none :=
          mapLookup_not_mem rest x hnd.1
        simp [mapLookup, hrest, mapLookup_mapInsert]
      · rw [mapLookup, if_neg (fun h => hx h.symm)]
        cases hr : mapLookup rest x with
        | some u => simp
        | none => simp [mapLookup_mapInsert, hx]

/-- `buildMap` preserves every binding of a distinct-key history. -/
theorem mapLookup_buildMap {α : Type} [DecidableEq α] (l : List (α × Int)) (x : α)
    (hnd : (l.map Prod.fst).Nodup) :
    mapLookup (buildMap l) x = mapLookup l x := by
  rw [buildMap, mapLookup_buildMap_aux l [] x hnd]
  cases h : mapLookup l x <;> rfl

/-- Zipping the two parallel slices of a history recovers the history. -/
theorem zip_map_fst_snd {α : Type} (l : List (α × Int)) :
    (l.map Prod.fst).zip (l.map Prod.snd) = l := by
  induction l with
  | nil => rfl
  | cons kv rest ih => simp [ih]

/-- Appending a fresh binding extends the lookup on the right. -/
theorem mapLookup_append_fresh {α : Type} [DecidableEq α] (l : List (α × Int))
    (e : α) (i : Int) (x : α) (he : e ∉ l.map Prod.fst) :
    mapLookup (l ++ [(e, i)]) x = if x = e then some i else mapLookup l x := by
  induction l with
  | nil =>
      simp only [List.nil_append, mapLookup]
      by_cases hx : x = e
      · rw [if_pos hx.symm, if_pos hx]
      · rw [if_neg (fun h => hx h.symm), if_neg hx]
  | cons kv rest ih =>
      obtain ⟨k, w⟩ := kv
      simp only [List.map_cons, List.mem_cons, not_or] at he
      by_cases hx : x = k
      · have hxe : ¬ x = e := by
          intro h
          exact he.1 (by rw [← h]; exact hx)
        rw [List.cons_append, mapLookup, if_pos hx.symm, if_neg hxe,
          mapLookup, if_pos hx.symm]
      · rw [List.cons_append, mapLookup, if_neg (fun h => hx h.symm), ih he.2]
        by_cases hxe : x = e
        · rw [if_pos hxe, if_pos hxe]
        · rw [if_neg hxe, if_neg hxe, mapLookup, if_neg (fun h => hx h.symm)]

/-- `Add` below the threshold appends to the parallel slices. -/
theorem fieldIndexCache_add_slice {α : Type} [DecidableEq α] (c : FieldIndexCache α)
    (e : α) (i : Int) (hm : c.m = none) (hlt : c.exprs.length < c.limitToUseSlice) :
    c.Add e i = { c with exprs := c.exprs ++ [e], indices := c.indices ++ [i] } := by
  have hnle : ¬ c.limitToUseSlice ≤ c.exprs.length := by omega
  simp [FieldIndexCache.Add, hm, hnle]

/-- `Add` at the threshold pours the slices into a fresh map, clears
them, and inserts the new pair into the map. -/
theorem fieldIndexCache_add_upgrade {α : Type} [DecidableEq α] (c : FieldIndexCache α)
    (e : α) (i : Int) (hm : c.m = none) (hge : c.limitToUseSlice ≤ c.exprs.length) :
    c.Add e i = { c with
        m := some (mapInsert (buildMap (c.exprs.zip c.indices)) e i)
        exprs := []
        indices := [] } := by
  simp [FieldIndexCache.Add, hm, hge]

/-- `Add` with the map present inserts into the map. -/
theorem fieldIndexCache_add_map {α : Type} [DecidableEq α] (c : FieldIndexCache α)
    (e : α) (i : Int) (mm : List (α × Int)) (hm : c.m = some mm) :
    c.Add e i = { c with m := some (mapInsert mm e i) } := by
  have hcond : ¬ (c.m = none ∧ c.limitToUseSlice ≤ c.exprs.length) := by
    rintro ⟨hnone, _⟩
    rw [hm] at hnone
    exact Option.noConfusion hnone
  simp [FieldIndexCache.Add, hcond, hm]

/-- One `Add` of a fresh key preserves the cache invariant. -/
theorem cacheInv_add {α : Type} [DecidableEq α] {L : Nat} {hist : List (α × Int)}
    {c : FieldIndexCache α} (e : α) (i : Int) (hinv : CacheInv L hist c)
    (hndh : (hist.map Prod.fst).Nodup) (he : e ∉ hist.map Prod.fst) :
    CacheInv L (hist ++ [(e, i)]) (c.Add e i) := by
  obtain ⟨hL, hcase⟩ := hinv
  rcases hcase with ⟨hm, hex, hidx, hlen⟩ | ⟨mm, hm, hex, hidx, hlen, hlook⟩
  · by_cases hup : L ≤ hist.length
    · have hlen' : hist.length = L := Nat.le_antisymm hlen hup
      rw [fieldIndexCache_add_upgrade c e i hm (by rw [hL, hex]; simpa using hup)]
      refine ⟨hL, Or.inr ⟨_, rfl, rfl, rfl, by simp; omega, ?_⟩⟩
      intro x
      rw [mapLookup_mapInsert, hex, hidx, zip_map_fst_snd, mapLookup_buildMap hist x hndh,
        mapLookup_append_fresh hist e i x he]
    · rw [fieldIndexCache_add_slice c e i hm (by rw [hL, hex]; simpa using hup)]
      refine ⟨hL, Or.inl ⟨hm, ?_, ?_, by simp; omega⟩⟩
      · simp [hex]
      · simp [hidx]
  · rw [fieldIndexCache_add_map c e i mm hm]
    refine ⟨hL, Or.inr ⟨_, rfl, hex, hidx, by simp; omega, ?_⟩⟩
    intro x
    rw [mapLookup_mapInsert, hlook x, mapLookup_append_fresh hist e i x he]

/-- A whole distinct-key `Add` sequence preserves the invariant. -/
theorem addAll_inv {α : Type} [DecidableEq α] {L : Nat} :
    ∀ (l hist : List (α × Int)) (c : FieldIndexCache α),
      CacheInv L hist c → ((hist ++ l).map Prod.fst).Nodup →
      CacheInv L (hist ++ l) (c.addAll l) := by
  intro l
  induction l with
  | nil =>
      intro hist c hinv _
      simpa [FieldIndexCache.addAll] using hinv
  | cons p rest ih =>
      intro hist c hinv hnd
      obtain ⟨e, i⟩ := p
      have h1 : (hist.map Prod.fst ++ ((e, i) :: rest).map Prod.fst).Nodup := by
        rw [← List.map_append]
        exact hnd
      have h2 := List.nodup_append.mp h1
      have hndh : (hist.map Prod.fst).Nodup := h2.1
      have he : e ∉ hist.map Prod.fst := by
        intro hin
        exact h2.2.2 hin (by simp)
      have hinv' := cacheInv_add e i hinv hndh he
      have happ : hist ++ (e, i) :: rest = (hist ++ [(e, i)]) ++ rest := by simp
      rw [happ] at hnd ⊢
      exact ih (hist ++ [(e, i)]) (c.Add e i) hinv' hnd

/-- C4: for every sequence of `Add` calls with pairwise distinct
expressions starting from a fresh cache, `Get` of an added expression
returns exactly its index with found=true, `Get` of a never-added
expression reports found=false, and the representation upgrades from the
parallel slices to the hash map exactly when more than
`LimitToUseFieldIndexSliceChache` (8) pairs have been added — i.e. when
an `Add` arrives while the slices already hold 8 entries — preserving
every existing mapping. -/
theorem fieldIndexCache_addAll_get {α : Type} [DecidableEq α] (initCap : Nat)
    (l : List (α × Int)) (hnd : (l.map Prod.fst).Nodup) :
    (∀ e i, (e, i) ∈ l →
      ((NewFieldIndexCache α initCap LimitToUseFieldIndexSliceChache).addAll l).Get e
        = (i, true))
    ∧ (∀ e, e ∉ l.map Prod.fst →
      (((NewFieldIndexCache α initCap LimitToUseFieldIndexSliceChache).addAll l).Get e).2
        = false)
    ∧ (((NewFieldIndexCache α initCap LimitToUseFieldIndexSliceChache).addAll l).m.isSome
        ↔ LimitToUseFieldIndexSliceChache < l.length) := by
  have hinv0 : CacheInv LimitToUseFieldIndexSliceChache []
      (NewFieldIndexCache α initCap LimitToUseFieldIndexSliceChache) :=
    ⟨rfl, Or.inl ⟨rfl, rfl, rfl, by simp⟩⟩
  have hinv := addAll_inv l [] _ hinv0 (by simpa using hnd)
  simp only [List.nil_append] at hinv
  obtain ⟨hL, hcase⟩ := hinv
  rcases hcase with ⟨hm, hex, hidx, hlen⟩ | ⟨mm, hm, hex, hidx, hlen, hlook⟩
  · refine ⟨?_, ?_, ?_⟩
    · intro e i hmem
      have hsome : mapLookup l e = some i := mapLookup_mem_nodup l e i hnd hmem
      simp [FieldIndexCache.Get, hm, hex, hidx, zip_map_fst_snd, hsome]
    · intro e hnot
      have hnone : mapLookup l e = none := mapLookup_not_mem l e hnot
      simp [FieldIndexCache.Get, hm, hex, hidx, zip_map_fst_snd, hnone]
    · rw [hm]
      simp only [Option.isSome_none, Bool.false_eq_true, false_iff]
      omega
  · refine ⟨?_, ?_, ?_⟩
    · intro e i hmem
      have hsome : mapLookup l e = some i := mapLookup_mem_nodup l e i hnd hmem
      simp [FieldIndexCache.Get, hm, hlook, hsome]
    · intro e hnot
      have hnone : mapLookup l e = none := mapLookup_not_mem l e hnot
      simp [FieldIndexCache.Get, hm, hlook, hnone]
    · rw [hm]
      simp only [Option.isSome_some, true_iff]
      exact hlen

/-- C4 witness: ten distinct additions cross the threshold of 8, the
representation is the map, and lookups still return exactly the added
indices (with found=false for a never-added key). -/
theorem fieldIndexCache_addAll_get_witness :
    ((NewFieldIndexCache Nat 4 LimitToUseFieldIndexSliceChache).addAll
        ((List.range 10).map (fun k => (k, (k : Int))))).Get 9 = (9, true)
    ∧ (((NewFieldIndexCache Nat 4 LimitToUseFieldIndexSliceChache).addAll
        ((List.range 10).map (fun k => (k, (k : Int))))).Get 99).2 = false
    ∧ ((NewFieldIndexCache Nat 4 LimitToUseFieldIndexSliceChache).addAll
        ((List.range 10).map (fun k => (k, (k : Int))))).m.isSome := by
  have h := fieldIndexCache_addAll_get 4
    ((List.range 10).map (fun k => (k, (k : Int)))) (by decide)
  exact ⟨h.1 9 9 (by decide), h.2.1 99 (by decide), h.2.2.mpr (by decide)⟩
